import Mathlib

/-!
Shallow embedding of the Oat shared-memory dataflow runtime, translated from
the C++ sources: SMServer.h (shared-memory server), Recorder.cpp (multi-stream
recorder), RecordControl.cpp (interactive control loop), Decorator.cpp (frame
decorator) and TestPosition.h (test position generator).  The definitions below
follow the source functions line by line; machine integers are modelled by Nat
with explicit reduction modulo 2 ^ w where overflow can occur, and fallible
operations return Except or carry explicit success flags.
-/

namespace Oat

/-- A video frame payload (cv::Mat) is opaque to the recorder fabric; we model
it by a numeric tag. -/
abbrev Frame := Nat

/-- A position payload (oat::Position2D) is likewise opaque here. -/
abbrev Position := Nat

/-! ### SMServer (src/lib/shmem/SMServer.h)

The server owns a named shared region `name + "_sh_mem"` holding a shared
object registered under the in-region key `name + "_sh_obj"`.  We model the
operating-system state of named shared regions as an association list from
region name to a region record; region ids come from a fresh counter so that a
freshly constructed region is distinguishable from a pre-existing one. -/

/-- One OS-named shared-memory region: its identity (which creation event made
it), its size in bytes, and the lookup keys of objects constructed inside it. -/
structure Region where
  rid : Nat
  size : Nat
  objects : List String
deriving Repr, DecidableEq

/-- The OS-global table of named shared regions plus a fresh-id counter. -/
structure ShmemOS where
  regions : List (String × Region)
  fresh : Nat
deriving Repr, DecidableEq

/-- Model of bip::shared_memory_object::remove — drop every region with the
given name. -/
def ShmemOS.removeRegion (os : ShmemOS) (nm : String) : ShmemOS :=
  { os with regions := os.regions.filter (fun p => p.1 != nm) }

/-- Model of bip::managed_shared_memory(open_or_create, nm, bytes) — return the
existing region if one with this name exists, otherwise construct a fresh one
of the requested size. -/
def ShmemOS.openOrCreate (os : ShmemOS) (nm : String) (bytes : Nat) :
    ShmemOS × Region :=
  match os.regions.lookup nm with
  | some r => (os, r)
  | none =>
      let r : Region := { rid := os.fresh, size := bytes, objects := [] }
      ({ regions := os.regions ++ [(nm, r)], fresh := os.fresh + 1 }, r)

/-- Replace the region stored under the given name. -/
def ShmemOS.setRegion (os : ShmemOS) (nm : String) (r : Region) : ShmemOS :=
  { os with regions := os.regions.map (fun p => if p.1 == nm then (nm, r) else p) }

/-- Model of managed_shared_memory::find_or_construct: register the lookup key
inside the region if it is not already present. -/
def Region.findOrConstruct (r : Region) (key : String) : Region :=
  if r.objects.contains key then r else { r with objects := r.objects ++ [key] }

/-- Process-local state of an SMServer (SMServer.h, lines 42-52). -/
structure SMServer where
  name : String
  shmem_name : String
  shobj_name : String
  shared_object_created : Bool
deriving Repr, DecidableEq

/-- The SMServer constructor (SMServer.h, lines 55-61): record the sink name
and derive the two OS-global names by appending the fixed suffixes. -/
def SMServer.create (sink_name : String) : SMServer :=
  { name := sink_name
    shmem_name := sink_name ++ "_sh_mem"
    shobj_name := sink_name ++ "_sh_obj"
    shared_object_created := false }

/-- SMServer::createSharedObject (SMServer.h, lines 76-99): first remove any
leftover region with this name, then open-or-create a region of size
sizeof(SharedMemType) + 1024, find-or-construct the shared object under the
in-region key, and set the ready flag.  The sizeof value is opaque; it is
passed in as `sizeofShared`.  The bip::bad_alloc catch only concerns OS
allocation failure and is not modelled. -/
def SMServer.createSharedObject (srv : SMServer) (sizeofShared : Nat)
    (os : ShmemOS) : SMServer × ShmemOS :=
  let os1 := os.removeRegion srv.shmem_name
  let p := os1.openOrCreate srv.shmem_name (sizeofShared + 1024)
  let r2 := p.2.findOrConstruct srv.shobj_name
  let os3 := p.1.setRegion srv.shmem_name r2
  ({ srv with shared_object_created := true }, os3)

/-! ### Recorder coordinator (src/src/recorder/Recorder.cpp)

The coordinator of Recorder::writeStreams reads one frame from each frame
source and pushes it onto that stream's boost::lockfree::spsc_queue.  A boost
spsc_queue push returns false and leaves the queue unchanged when the queue is
full; Recorder.cpp line 196 discards that return value. -/

/-- Modelled from the spec: the SPSC queue capacity constant
`frame_write_buffer_size` lives in Recorder.h, which is not among the sources;
the spec gives the per-writer queue capacity as 128. -/
def frame_write_buffer_size : Nat := 128

/-- Semantics of boost::lockfree::spsc_queue::push on a queue of capacity
`cap`: append if there is space and report success, otherwise leave the queue
unchanged and report failure. -/
def spscPush (cap : Nat) (q : List Frame) (x : Frame) : List Frame × Bool :=
  if q.length < cap then (q ++ [x], true) else (q, false)

/-- The frame loop of Recorder::writeStreams (Recorder.cpp, lines 188-203).
Input: per-source read results (none when getSharedMat reported no new data,
which breaks the loop) and the per-source queues.  Output: the updated queues,
the final frame_read_success flag, and the list of frames that were read from
a source but silently dropped because their queue was full (the push return
value is ignored by the source code). -/
def frameLoop (cap : Nat) :
    List (Option Frame) → List (List Frame) → List (List Frame) × Bool × List Frame
  | [], qs => (qs, true, [])
  | _ :: _, [] => ([], true, [])
  | none :: _, q :: qs => (q :: qs, false, [])
  | some f :: fs, q :: qs =>
      let p := spscPush cap q f
      let rest := frameLoop cap fs qs
      (p.1 :: rest.1, rest.2.1, (if p.2 then [] else [f]) ++ rest.2.2)

/-! ### Per-stream frame writer thread (Recorder.cpp, lines 229-248)

Recorder::writeFramesToFileFromBuffer loops `while (running)`; each iteration
waits on the condition variable (with a 10 ms timeout) and then, if the queue
has an entry, opens the video writer on the first frame if necessary, writes
the front frame and pops it.  We model one loop iteration as `writerIter` and
the whole thread as `writerLoop`, driven by the sequence of values the
`running` flag has at the successive loop-condition checks. -/

/-- Thread-local view of one frame writer: its SPSC queue, whether the video
writer has been opened, and the frames written to the video file so far. -/
structure WriterState where
  queue : List Frame
  writerOpened : Bool
  written : List Frame
deriving Repr, DecidableEq

/-- One body iteration of Recorder::writeFramesToFileFromBuffer: after the
condvar wait, if the queue is non-empty the front frame is written (opening
the video writer first if needed) and popped; otherwise nothing happens. -/
def writerIter (s : WriterState) : WriterState :=
  match s.queue with
  | [] => s
  | f :: rest =>
      { queue := rest, writerOpened := true, written := s.written ++ [f] }

/-- The writer thread loop.  `sched` lists the value of the `running` flag at
each successive loop-condition check.  The Bool in the result is true exactly
when the thread exited by observing `running = false`; it is false when the
schedule ran out with the thread still looping. -/
def writerLoop : List Bool → WriterState → WriterState × Bool
  | [], s => (s, false)
  | r :: sched, s =>
      if r then writerLoop sched (writerIter s) else (s, true)

/-! ### Position JSON output (Recorder.cpp, lines 85-96, 179-183, 250-271)

The Recorder constructor emits StartArray once; each completed tick of
writeStreams calls writePositionsToFile, which emits one element; the
destructor emits the closing EndArray.  We model the rapidjson token stream
and, separately, structured JSON values with their serialization, to state
well-formedness of the emitted stream. -/

/-- One rapidjson writer event as used by the Recorder. -/
inductive JTok where
  | startArr
  | endArr
  | uint (n : Nat)
  | record (p : Position)
deriving Repr, DecidableEq

/-- Structured JSON values as far as the position file needs them: numbers,
opaque serialized position records, and arrays. -/
inductive JVal where
  | num (n : Nat)
  | record (p : Position)
  | arr (elems : List JVal)

mutual

/-- Token stream of a well-formed JSON value. -/
def JVal.serialize : JVal → List JTok
  | .num n => [.uint n]
  | .record p => [.record p]
  | .arr es => .startArr :: JVal.serializeList es ++ [.endArr]

/-- Token stream of a sequence of well-formed JSON values. -/
def JVal.serializeList : List JVal → List JTok
  | [] => []
  | v :: vs => JVal.serialize v ++ JVal.serializeList vs

end

/-- Recorder::writePositionsToFile (Recorder.cpp, lines 250-271): one element
per tick — StartArray, the sample tick from position source 0, a nested array
of the serialized positions, and the two closing EndArray events. -/
def writePositionsToFile (t : Nat) (ps : List Position) : List JTok :=
  [.startArr, .uint t, .startArr] ++ ps.map JTok.record ++ [.endArr, .endArr]

/-- Token stream produced by the per-tick calls over a whole run; each entry
of `ticks` is the sample tick paired with the positions gathered that tick. -/
def runTicks : List (Nat × List Position) → List JTok
  | [] => []
  | tp :: rest => writePositionsToFile tp.1 tp.2 ++ runTicks rest

/-- The whole position-file token stream of one Recorder run with at least one
position source: StartArray from the constructor (line 95), one element per
fully processed tick, EndArray from the destructor (line 180). -/
def recorderPositionTokens (ticks : List (Nat × List Position)) : List JTok :=
  [.startArr] ++ runTicks ticks ++ [.endArr]

/-- The structured JSON value the position file is meant to denote: one array
with a two-element array [sample_tick, [pos_record, ...]] per tick. -/
def positionFileVal (ticks : List (Nat × List Position)) : JVal :=
  .arr (ticks.map fun tp => .arr [.num tp.1, .arr (tp.2.map JVal.record)])

/-- The elements of a JSON array value. -/
def JVal.elems : JVal → List JVal
  | .arr es => es
  | _ => []

/-- The sample tick of a position-file element of shape
[sample_tick, [pos_record, ...]]. -/
def JVal.tickOf : JVal → Nat
  | .arr (.num t :: _) => t
  | _ => 0

/-! ### Recorder control loop (src/src/recorder/RecordControl.cpp)

controlRecorder reads lines, maps them through an unordered_map to a command
character, and dispatches.  The cases for the mapped characters of "new" and
"rename" are commented out in the source, so those commands fall through to
the default branch.  The default branch does in.clear() followed by
in.ignore(max) with no delimiter, which discards every remaining character of
the stream (not just the current line — getline already consumed the line).
We model the input as the list of lines still unread; discarding the rest of
the stream drops the whole remainder of that list. -/

/-- Observable outputs of the control loop. -/
inductive CtlOut where
  | exitMsg
  | helpBlock
  | recordOnMsg
  | recordOffMsg
  | invalid (cmd : String)
deriving Repr, DecidableEq

/-- Result of a control-loop run: the final record_on flag, the return code
(some 0 exactly when the loop ended via the exit command; none models running
out of input, where the real loop would spin on EOF and never return), and the
outputs in order. -/
structure CtlResult where
  record_on : Bool
  retcode : Option Nat
  outs : List CtlOut
deriving Repr, DecidableEq

/-- The cmd_map of RecordControl.cpp lines 32-38; operator lookup on a missing
key default-constructs the mapped char, giving the zero character. -/
def cmdChar (c : String) : Char :=
  if c = "exit" then 'e'
  else if c = "help" then 'h'
  else if c = "start" then 's'
  else if c = "stop" then 'S'
  else if c = "new" then 'n'
  else if c = "rename" then 'r'
  else Char.ofNat 0

/-- Prepend an output to a control-loop result. -/
def CtlResult.push (o : CtlOut) (r : CtlResult) : CtlResult :=
  { r with outs := o :: r.outs }

/-- controlRecorder (RecordControl.cpp, lines 26-102) over the list of input
lines, carrying the record_on flag.  The switch handles the characters for
exit, help, start and stop; everything else (including "new" and "rename",
whose cases are commented out) reaches the default branch, which reports the
token and discards all remaining input. -/
def controlRecorder : List String → Bool → CtlResult
  | [], ro => ⟨ro, none, []⟩
  | cmd :: rest, ro =>
      match cmdChar cmd with
      | 'e' => ⟨ro, some 0, [.exitMsg]⟩
      | 'h' => CtlResult.push .helpBlock (controlRecorder rest ro)
      | 's' => CtlResult.push .recordOnMsg (controlRecorder rest true)
      | 'S' => CtlResult.push .recordOffMsg (controlRecorder rest false)
      | _ => ⟨ro, none, [.invalid cmd]⟩

/-- The control loop as the specification words it: identical dispatch, but an
unknown command only clears the input to end-of-line — since getline already
consumed the line, processing continues with the next line.  This definition
follows the claim text, for comparison against `controlRecorder` above. -/
def controlRecorderSpecModel : List String → Bool → CtlResult
  | [], ro => ⟨ro, none, []⟩
  | cmd :: rest, ro =>
      match cmdChar cmd with
      | 'e' => ⟨ro, some 0, [.exitMsg]⟩
      | 'h' => CtlResult.push .helpBlock (controlRecorderSpecModel rest ro)
      | 's' => CtlResult.push .recordOnMsg (controlRecorderSpecModel rest true)
      | 'S' => CtlResult.push .recordOffMsg (controlRecorderSpecModel rest false)
      | _ => CtlResult.push (.invalid cmd) (controlRecorderSpecModel rest ro)

/-- The four line commands with an active switch case. -/
def handledCmds : List String := ["exit", "help", "start", "stop"]

/-! ### Decorator (src/src/decorator/Decorator.cpp) -/

/-- One endpoint-setup call made by Decorator::connectToNodes. -/
inductive ConnEv where
  | touchFrame
  | connectFrame
  | getParameters
  | touchPos (addr : String)
  | connectPos (addr : String)
  | bindSink
  | retrieveSink
deriving Repr, DecidableEq

/-- Decorator::connectToNodes (Decorator.cpp, lines 65-88) as the trace of
endpoint-setup calls it performs, given the position source addresses: touch
and connect the frame source, read its connection parameters, touch every
position source, connect every position source, then bind the frame sink and
retrieve the shared frame. -/
def connectToNodes (addrs : List String) : List ConnEv :=
  [.touchFrame, .connectFrame, .getParameters]
    ++ addrs.map ConnEv.touchPos
    ++ addrs.map ConnEv.connectPos
    ++ [.bindSink, .retrieveSink]

/-- Source-side setup events (touch and connect calls on Sources). -/
def ConnEv.isSourceSetup : ConnEv → Bool
  | .touchFrame => true
  | .connectFrame => true
  | .touchPos _ => true
  | .connectPos _ => true
  | _ => false

/-- Sink-side setup events (bind and retrieve on the frame Sink). -/
def ConnEv.isSinkSetup : ConnEv → Bool
  | .bindSink => true
  | .retrieveSink => true
  | _ => false

/-- One bit square written by Decorator::encodeSampleNumber: its starting
column, its side length (the square spans columns [col, col + side) and the
top rows [0, side)), and the encoded bit. -/
structure BitSquare where
  col : Int
  side : Int
  bit : Bool
deriving Repr, DecidableEq

/-- The 64-iteration loop of encodeSampleNumber (Decorator.cpp, lines
298-315): each iteration paints one square from the low bit of the shifted
sample count, then shifts the count right and advances the column. -/
def encodeLoop (b : Int) : Nat → Nat → Int → List BitSquare
  | 0, _, _ => []
  | n + 1, sample, column =>
      ⟨column, b, sample % 2 == 1⟩ :: encodeLoop b n (sample / 2) (column + b)

/-- Decorator::encodeSampleNumber (Decorator.cpp, lines 289-316): with frame
width `cols` and bit-square side `b`, the starting column is cols - 64 * b; if
it is negative a runtime error is thrown, otherwise 64 squares encoding the
sample count are painted into the top rows. -/
def encodeSampleNumber (cols b : Int) (sample : Nat) :
    Except String (List BitSquare) :=
  if cols - 64 * b < 0 then
    .error "Binary counter bar is too large for frame."
  else
    .ok (encodeLoop b 64 sample (cols - 64 * b))

/-- Whether an Except result is the error case. -/
def isErr {ε α : Type} : Except ε α → Bool
  | .error _ => true
  | .ok _ => false

/-- The color-index counter loop shared by Decorator::drawPosition (lines
166-181), drawVelocity (lines 205-221) and printRegion (lines 242-257): `n` is
position_sources_.size(), the second argument counts the remaining loop
iterations, the third is the counter i.  Each iteration uses i, then performs
the update from line 179, (i > n - 1) ? i = 0 : i++.  The result lists the
indices used and counts how often the reset branch fired. -/
def colorIndexLoop (n : Nat) : Nat → Nat → List Nat × Nat
  | 0, _ => ([], 0)
  | k + 1, i =>
      let rest := colorIndexLoop n k (if i > n - 1 then 0 else i + 1)
      (i :: rest.1, (if i > n - 1 then 1 else 0) + rest.2)

/-- The color indices used during one pass of drawPosition or drawVelocity
over n position sources, paired with the number of reset-branch firings. -/
def drawColorIndices (n : Nat) : List Nat × Nat :=
  colorIndexLoop n n 0

/-! ### TestPosition (src/src/positiontester/TestPosition.h)

TestPosition::process (lines 63-70) publishes one generated position tagged
with the current value of the uint32_t member `sample`, increments `sample`,
and returns false.  The counter is a 32-bit unsigned integer, so the increment
is modulo 2 ^ 32. -/

/-- One process call, given the current sample counter: the published sample
number, the updated counter, and the end-of-stream return value. -/
def testPositionProcess (sample : Nat) : Nat × Nat × Bool :=
  (sample, (sample + 1) % 2 ^ 32, false)

/-- The sample counter after n process calls, starting from the constructor
value 0 (TestPosition.h, line 51). -/
def sampleAfterCalls : Nat → Nat
  | 0 => 0
  | n + 1 => (testPositionProcess (sampleAfterCalls n)).2.1

/-- The sample number published by the k-th process call (k counted from 1). -/
def publishedOnCall (k : Nat) : Nat :=
  (testPositionProcess (sampleAfterCalls (k - 1))).1

/-- The list of sample numbers published by the first n process calls. -/
def publishedList : Nat → List Nat
  | 0 => []
  | n + 1 => publishedList n ++ [(testPositionProcess (sampleAfterCalls n)).1]

/-! ## Theorems -/

theorem lookup_filter_ne (l : List (String × Region)) (nm : String) :
    (l.filter (fun p => p.1 != nm)).lookup nm = none := by
  rw [List.lookup_eq_none_iff]
  intro p hp
  have h1 : (p.1 != nm) = true := (List.mem_filter.mp hp).2
  have h2 : p.1 ≠ nm := by simpa using h1
  simpa using fun e => h2 e.symm

theorem lookup_setRegion_after (l : List (String × Region)) (nm : String)
    (r r2 : Region) (h : ∀ p ∈ l, p.1 ≠ nm) :
    ((l ++ [(nm, r)]).map
        (fun p => if p.1 == nm then (nm, r2) else p)).lookup nm = some r2 := by
  rw [List.map_append, List.lookup_append]
  have hnone :
      ((l.map (fun p => if p.1 == nm then (nm, r2) else p)).lookup nm)
        = none := by
    rw [List.lookup_eq_none_iff]
    intro p hp
    obtain ⟨q, hq, rfl⟩ := List.mem_map.mp hp
    have hq1 : q.1 ≠ nm := h q hq
    rw [if_neg (by simpa using hq1)]
    simpa using fun e => hq1 e.symm
  rw [hnone]
  have hone : (([(nm, r)] : List (String × Region)).map
      (fun p => if p.1 == nm then (nm, r2) else p)) = [(nm, r2)] := by
    simp
  rw [hone]
  simp

/-- C8: for every caller-supplied address string A, the fabric reserves
exactly the two OS-global names A ++ "_sh_mem" (the shared region) and
A ++ "_sh_obj" (the in-region lookup key), with no other mangling of A: the
constructor stores A unchanged and the two derived names, and creating the
shared object on a fresh OS yields exactly one region, named A ++ "_sh_mem",
containing exactly the one lookup key A ++ "_sh_obj". -/
theorem C8_address_names (a : String) :
    (SMServer.create a).shmem_name = a ++ "_sh_mem" ∧
    (SMServer.create a).shobj_name = a ++ "_sh_obj" ∧
    (SMServer.create a).name = a ∧
    ∀ sz, ((SMServer.create a).createSharedObject sz ⟨[], 0⟩).2.regions =
      [(a ++ "_sh_mem", ⟨0, sz + 1024, [a ++ "_sh_obj"]⟩)] := by
  refine ⟨rfl, rfl, rfl, ?_⟩
  intro sz
  simp [SMServer.createSharedObject, SMServer.create, ShmemOS.removeRegion,
    ShmemOS.openOrCreate, ShmemOS.setRegion, Region.findOrConstruct,
    List.lookup]

/-- C1 counterexample: another live process owns the region named
"A_sh_mem" (region id 7, its sink not dropped), yet a subsequent
createSharedObject on address "A" does not fail with any AlreadyBound or
AddressInUse error — it succeeds, sets the ready flag, and replaces the
existing region with a freshly created one (region id 8). -/
theorem C1_counterexample :
    ((SMServer.create "A").createSharedObject 40
        ⟨[("A_sh_mem", ⟨7, 1064, ["A_sh_obj"]⟩)], 8⟩).1.shared_object_created
      = true ∧
    ((SMServer.create "A").createSharedObject 40
        ⟨[("A_sh_mem", ⟨7, 1064, ["A_sh_obj"]⟩)], 8⟩).2.regions
      = [("A_sh_mem", ⟨8, 1064, ["A_sh_obj"]⟩)] := by
  constructor
  · rfl
  · decide

/-- C1 amended: createSharedObject never fails on an address that is already
bound; it first removes any existing region with that name and then creates a
fresh region (carrying the fresh id of the OS state) holding only the
in-region lookup key, and it sets shared_object_created unconditionally. -/
theorem C1_replaces_existing_region (a : String) (sz : Nat) (os : ShmemOS) :
    ((SMServer.create a).createSharedObject sz os).1.shared_object_created
      = true ∧
    ((SMServer.create a).createSharedObject sz os).2.regions.lookup
        (a ++ "_sh_mem")
      = some ⟨os.fresh, sz + 1024, [a ++ "_sh_obj"]⟩ := by
  constructor
  · rfl
  · have hnone : (os.regions.filter
        (fun p => p.1 != a ++ "_sh_mem")).lookup (a ++ "_sh_mem") = none :=
      lookup_filter_ne os.regions (a ++ "_sh_mem")
    have hmem : ∀ p ∈ os.regions.filter (fun p => p.1 != a ++ "_sh_mem"),
        p.1 ≠ a ++ "_sh_mem" := by
      intro p hp
      have := List.of_mem_filter hp
      simpa using this
    simp only [SMServer.createSharedObject, SMServer.create,
      ShmemOS.removeRegion, ShmemOS.openOrCreate, hnone, ShmemOS.setRegion,
      Region.findOrConstruct]
    simpa [Region.findOrConstruct] using
      lookup_setRegion_after
        (os.regions.filter (fun p => p.1 != a ++ "_sh_mem"))
        (a ++ "_sh_mem") ⟨os.fresh, sz + 1024, []⟩
        ⟨os.fresh, sz + 1024, [a ++ "_sh_obj"]⟩ hmem

theorem colorIndexLoop_run (n : Nat) :
    ∀ k i, i + k = n → colorIndexLoop n k i = (List.range' i k, 0) := by
  intro k
  induction k with
  | zero => intro i _; rfl
  | succ m ih =>
      intro i hi
      have hlt : ¬ i > n - 1 := by omega
      simp only [colorIndexLoop, if_neg hlt]
      rw [ih (i + 1) (by omega)]
      simp [List.range']

/-- C9: in drawPosition and drawVelocity the color-index counter update
(i > size - 1) ? i = 0 : i++ produces, over one pass across n position
sources, exactly the index sequence 0, 1, ..., n-1, and the reset branch
never fires (in particular not at the last index n-1). -/
theorem C9_color_indices (n : Nat) :
    (drawColorIndices n).1 = List.range n ∧ (drawColorIndices n).2 = 0 := by
  have h := colorIndexLoop_run n n 0 (by omega)
  unfold drawColorIndices
  rw [h, List.range_eq_range']
  exact ⟨rfl, rfl⟩

/-- C3 counterexample: a writer thread that observes running = false at its
loop-condition check exits immediately even though its queue still holds two
unwritten frames; nothing is written.  This contradicts the claim that the
thread exits only when running is false and the queue is empty. -/
theorem C3_counterexample :
    (writerLoop [false] ⟨[1, 2], false, []⟩).2 = true ∧
    (writerLoop [false] ⟨[1, 2], false, []⟩).1.queue = [1, 2] ∧
    (writerLoop [false] ⟨[1, 2], false, []⟩).1.written = [] := by
  decide

theorem writerLoop_cons_true (sched : List Bool) (s : WriterState) :
    writerLoop (true :: sched) s = writerLoop sched (writerIter s) := rfl

theorem writerLoop_replicate (k : Nat) (q : List Frame) (b : Bool)
    (w : List Frame) :
    writerLoop (List.replicate k true ++ [false]) ⟨q, b, w⟩ =
      (⟨q.drop k, b || (decide (0 < k) && !q.isEmpty), w ++ q.take k⟩, true) := by
  induction k generalizing q b w with
  | zero => simp [writerLoop]
  | succ m ih =>
      rw [List.replicate_succ, List.cons_append, writerLoop_cons_true]
      cases q with
      | nil =>
          show writerLoop (List.replicate m true ++ [false]) ⟨[], b, w⟩ = _
          rw [ih [] b w]
          simp
      | cons f rest =>
          show writerLoop (List.replicate m true ++ [false])
              ⟨rest, true, w ++ [f]⟩ = _
          rw [ih rest true (w ++ [f])]
          simp

/-- C3 amended: the per-stream writer thread exits as soon as it observes
running = false at a loop-condition check, regardless of whether its queue is
empty.  If running is true for exactly k checks and then false, starting from
a queue q, the thread exits having written only the first min(k, |q|) frames;
the frames in q.drop k remain in the queue, unwritten, at thread exit. -/
theorem C3_writer_exit (k : Nat) (q : List Frame) :
    writerLoop (List.replicate k true ++ [false]) ⟨q, false, []⟩ =
      (⟨q.drop k, decide (0 < k) && !q.isEmpty, q.take k⟩, true) := by
  simpa using writerLoop_replicate k q false []

theorem frameLoop_success_of_all_some (cap : Nat) :
    ∀ (fs : List (Option Frame)) (qs : List (List Frame)),
      (∀ o ∈ fs, o.isSome = true) → (frameLoop cap fs qs).2.1 = true := by
  intro fs
  induction fs with
  | nil => intro qs _; rfl
  | cons o t ih =>
      intro qs hall
      cases qs with
      | nil => cases o <;> rfl
      | cons q qt =>
          cases o with
          | none =>
              have : (Option.none : Option Frame).isSome = true :=
                hall none (List.mem_cons_self _ _)
              simp at this
          | some f =>
              show (frameLoop cap t qt).2.1 = true
              exact ih qt (fun o ho => hall o (List.mem_cons_of_mem _ ho))

theorem frameLoop_drop_aux (cap : Nat) :
    ∀ (fs : List (Option Frame)) (qs : List (List Frame)) (i : Nat)
      (f : Frame) (q : List Frame),
      (∀ o ∈ fs, o.isSome = true) →
      fs[i]? = some (some f) → qs[i]? = some q → cap ≤ q.length →
      (frameLoop cap fs qs).1[i]? = some q ∧
      f ∈ (frameLoop cap fs qs).2.2 := by
  intro fs
  induction fs with
  | nil => intro qs i f q _ hf; simp at hf
  | cons o t ih =>
      intro qs i f q hall hf hq hfull
      cases qs with
      | nil => simp at hq
      | cons q0 qt =>
          cases o with
          | none =>
              have : (Option.none : Option Frame).isSome = true :=
                hall none (List.mem_cons_self _ _)
              simp at this
          | some f0 =>
              cases i with
              | zero =>
                  have hf0 : f0 = f := by simpa using hf
                  have hq0 : q0 = q := by simpa using hq
                  have hpush : spscPush cap q0 f0 = (q0, false) := by
                    unfold spscPush
                    rw [if_neg (by rw [hq0]; omega)]
                  show ((spscPush cap q0 f0).1 :: (frameLoop cap t qt).1)[0]?
                        = some q ∧
                      f ∈ (if (spscPush cap q0 f0).2 then [] else [f0])
                        ++ (frameLoop cap t qt).2.2
                  rw [hpush]
                  exact ⟨by simpa using hq0, by simp [hf0]⟩
              | succ j =>
                  have hall1 : ∀ o ∈ t, o.isSome = true :=
                    fun o ho => hall o (List.mem_cons_of_mem _ ho)
                  have hrec := ih qt j f q hall1 (by simpa using hf)
                    (by simpa using hq) hfull
                  show ((spscPush cap q0 f0).1 :: (frameLoop cap t qt).1)[j + 1]?
                        = some q ∧
                      f ∈ (if (spscPush cap q0 f0).2 then [] else [f0])
                        ++ (frameLoop cap t qt).2.2
                  exact ⟨by simpa using hrec.1,
                    List.mem_append_right _ hrec.2⟩

/-- C2 counterexample: with the per-writer SPSC queue (capacity 128, the value
the spec gives for the constant in Recorder.h) already full, the coordinator
pushes the frame it just read, the push fails, the frame is dropped (third
component), the queue is unchanged, and the tick still completes with
frame_read_success = true — the coordinator does not stall until space is
available. -/
theorem C2_counterexample :
    frameLoop frame_write_buffer_size [some 5]
        [List.replicate frame_write_buffer_size 0] =
      ([List.replicate frame_write_buffer_size 0], true, [5]) := by
  simp [frameLoop, spscPush, frame_write_buffer_size]

/-- C2 amended: when a frame stream's SPSC queue is full at push time, the
coordinator does not stall: the push fails, the queue is left unchanged, the
frame read from the Source is dropped, and the loop continues to completion
(frame_read_success stays true when every Source read succeeded). -/
theorem C2_full_queue_drops (cap : Nat) (fs : List (Option Frame))
    (qs : List (List Frame)) (i : Nat) (f : Frame) (q : List Frame)
    (hall : ∀ o ∈ fs, o.isSome = true)
    (hf : fs[i]? = some (some f))
    (hq : qs[i]? = some q)
    (hfull : cap ≤ q.length) :
    (frameLoop cap fs qs).2.1 = true ∧
    (frameLoop cap fs qs).1[i]? = some q ∧
    f ∈ (frameLoop cap fs qs).2.2 := by
  have h := frameLoop_drop_aux cap fs qs i f q hall hf hq hfull
  exact ⟨frameLoop_success_of_all_some cap fs qs hall, h.1, h.2⟩

theorem C2_full_queue_drops_witness :
    (frameLoop 2 [some 9] [[1, 2]]).2.1 = true ∧
    (frameLoop 2 [some 9] [[1, 2]]).1[0]? = some [1, 2] ∧
    9 ∈ (frameLoop 2 [some 9] [[1, 2]]).2.2 :=
  C2_full_queue_drops 2 [some 9] [[1, 2]] 0 9 [1, 2]
    (by decide) rfl rfl (by decide)

theorem encodeLoop_length (b : Int) :
    ∀ (n : Nat) (s : Nat) (c : Int), (encodeLoop b n s c).length = n := by
  intro n
  induction n with
  | zero => intro s c; rfl
  | succ m ih =>
      intro s c
      simp only [encodeLoop, List.length_cons, ih]

theorem encodeLoop_getElem (b : Int) :
    ∀ (n j : Nat) (s : Nat) (c : Int), j < n →
      (encodeLoop b n s c)[j]? =
        some ⟨c + j * b, b, Nat.testBit s j⟩ := by
  intro n
  induction n with
  | zero => intro j s c h; omega
  | succ m ih =>
      intro j s c hlt
      have hunfold : encodeLoop b (m + 1) s c
          = ⟨c, b, (s % 2 == 1)⟩ :: encodeLoop b m (s / 2) (c + b) := rfl
      cases j with
      | zero =>
          rw [hunfold, List.getElem?_cons_zero]
          have hbit : (s % 2 == 1) = Nat.testBit s 0 := by
            rw [Nat.testBit_zero]
            cases hb : s % 2 == 1 <;> simp_all
          rw [hbit]
          norm_num
      | succ i =>
          rw [hunfold, List.getElem?_cons_succ, ih i (s / 2) (c + b) (by omega)]
          have hb2 : Nat.testBit (s / 2) i = Nat.testBit s (i + 1) := by
            rw [Nat.testBit_add_one]
          rw [hb2]
          have harith : (c + b) + (i : Int) * b = c + ((i + 1 : Nat) : Int) * b := by
            push_cast
            ring
          rw [harith]

/-- C6: encodeSampleNumber raises the payload-too-large error exactly when
cols - 64 * encode_bit_size is negative (the 64-square counter bar does not
fit); otherwise it does not throw and paints exactly 64 bit squares into the
top rows, the j-th starting at column cols - 64 * b + j * b with side b and
holding bit j of the sample number. -/
theorem C6_encode_sample_number (cols b : Int) (sample : Nat) :
    (isErr (encodeSampleNumber cols b sample) = true ↔ cols - 64 * b < 0) ∧
    ∀ sq, encodeSampleNumber cols b sample = .ok sq →
      sq.length = 64 ∧
      ∀ j, j < 64 →
        sq[j]? = some ⟨cols - 64 * b + j * b, b, Nat.testBit sample j⟩ := by
  constructor
  · unfold encodeSampleNumber
    by_cases h : cols - 64 * b < 0
    · rw [if_pos h]
      simpa [isErr] using h
    · rw [if_neg h]
      simpa [isErr] using h
  · intro sq hsq
    have hok : sq = encodeLoop b 64 sample (cols - 64 * b) := by
      unfold encodeSampleNumber at hsq
      by_cases h : cols - 64 * b < 0
      · rw [if_pos h] at hsq
        cases hsq
      · rw [if_neg h] at hsq
        cases hsq
        rfl
    subst hok
    exact ⟨encodeLoop_length b 64 sample _,
      fun j hj => encodeLoop_getElem b 64 j sample _ hj⟩

theorem C6_encode_sample_number_witness :
    isErr (encodeSampleNumber 340 5 6) = false ∧
    (encodeLoop 5 64 6 (340 - 64 * 5)).length = 64 ∧
    (encodeLoop 5 64 6 (340 - 64 * 5))[1]? =
      some ⟨340 - 64 * 5 + 1 * 5, 5, Nat.testBit 6 1⟩ := by
  have h := C6_encode_sample_number 340 5 6
  have hok : encodeSampleNumber 340 5 6
      = .ok (encodeLoop 5 64 6 (340 - 64 * 5)) := by
    unfold encodeSampleNumber
    rw [if_neg (by decide)]
  have h2 := h.2 (encodeLoop 5 64 6 (340 - 64 * 5)) hok
  refine ⟨?_, h2.1, h2.2 1 (by decide)⟩
  cases herr : isErr (encodeSampleNumber 340 5 6)
  · rfl
  · exact absurd (h.1.mp herr) (by decide)

theorem ctl_exit (rest : List String) (ro : Bool) :
    controlRecorder ("exit" :: rest) ro = ⟨ro, some 0, [CtlOut.exitMsg]⟩ := rfl

theorem ctl_help (rest : List String) (ro : Bool) :
    controlRecorder ("help" :: rest) ro
      = CtlResult.push .helpBlock (controlRecorder rest ro) := rfl

theorem ctl_start (rest : List String) (ro : Bool) :
    controlRecorder ("start" :: rest) ro
      = CtlResult.push .recordOnMsg (controlRecorder rest true) := rfl

theorem ctl_stop (rest : List String) (ro : Bool) :
    controlRecorder ("stop" :: rest) ro
      = CtlResult.push .recordOffMsg (controlRecorder rest false) := rfl

theorem ctl_unknown (cmd : String) (rest : List String) (ro : Bool)
    (h : cmd ∉ handledCmds) :
    controlRecorder (cmd :: rest) ro = ⟨ro, none, [CtlOut.invalid cmd]⟩ := by
  have h1 : cmd ≠ "exit" := fun e => h (by simp [handledCmds, e])
  have h2 : cmd ≠ "help" := fun e => h (by simp [handledCmds, e])
  have h3 : cmd ≠ "start" := fun e => h (by simp [handledCmds, e])
  have h4 : cmd ≠ "stop" := fun e => h (by simp [handledCmds, e])
  have hc : cmdChar cmd = 'n' ∨ cmdChar cmd = 'r' ∨
      cmdChar cmd = Char.ofNat 0 := by
    unfold cmdChar
    rw [if_neg h1, if_neg h2, if_neg h3, if_neg h4]
    by_cases h5 : cmd = "new"
    · rw [if_pos h5]
      exact Or.inl rfl
    · rw [if_neg h5]
      by_cases h6 : cmd = "rename"
      · rw [if_pos h6]
        exact Or.inr (Or.inl rfl)
      · rw [if_neg h6]
        exact Or.inr (Or.inr rfl)
  rcases hc with hcc | hcc | hcc <;>
    · simp only [controlRecorder]
      rw [hcc]
      rfl

theorem ctl_discard :
    ∀ (pre : List String) (cmd : String) (rest : List String) (ro : Bool),
      (∀ c ∈ pre, c = "help" ∨ c = "start" ∨ c = "stop") →
      cmd ∉ handledCmds →
      controlRecorder (pre ++ cmd :: rest) ro
        = controlRecorder (pre ++ [cmd]) ro := by
  intro pre
  induction pre with
  | nil =>
      intro cmd rest ro _ h
      simp only [List.nil_append]
      rw [ctl_unknown cmd rest ro h, ctl_unknown cmd [] ro h]
  | cons c pre ih =>
      intro cmd rest ro hpre h
      have hc := hpre c (List.mem_cons_self _ _)
      have hpre1 : ∀ x ∈ pre, x = "help" ∨ x = "start" ∨ x = "stop" :=
        fun x hx => hpre x (List.mem_cons_of_mem _ hx)
      rcases hc with rfl | rfl | rfl
      · rw [List.cons_append, List.cons_append, ctl_help, ctl_help,
          ih cmd rest ro hpre1 h]
      · rw [List.cons_append, List.cons_append, ctl_start, ctl_start,
          ih cmd rest true hpre1 h]
      · rw [List.cons_append, List.cons_append, ctl_stop, ctl_stop,
          ih cmd rest false hpre1 h]

/-- C5 counterexample: on the input lines "zzz", "start", "exit" the code
model reports the invalid token and then discards the entire remaining input
stream (in.ignore with no delimiter runs to end of stream, not end of line),
so the subsequent start and exit commands are never processed: record_on
stays false and the loop never reaches the clean-shutdown return.  Under the
claim's clear-to-end-of-line reading the same input would set record_on and
return exit code 0. -/
theorem C5_counterexample :
    controlRecorder ["zzz", "start", "exit"] false
      = ⟨false, none, [CtlOut.invalid "zzz"]⟩ ∧
    controlRecorderSpecModel ["zzz", "start", "exit"] false
      = ⟨true, some 0,
          [CtlOut.invalid "zzz", CtlOut.recordOnMsg, CtlOut.exitMsg]⟩ := by
  constructor <;> rfl

/-- C5 amended: start sets record_on, stop clears it, help prints the help
block, exit ends the loop with return code 0; an unknown command (anything
outside start/stop/help/exit, including the commented-out "new" and
"rename") reports the offending token and then discards all remaining input
to end of stream — not merely to end of line — so no later command is ever
processed and the loop does not reach the clean-shutdown return. -/
theorem C5_control_loop :
    (∀ rest ro, controlRecorder ("exit" :: rest) ro
        = ⟨ro, some 0, [CtlOut.exitMsg]⟩) ∧
    (∀ rest ro, controlRecorder ("help" :: rest) ro
        = CtlResult.push .helpBlock (controlRecorder rest ro)) ∧
    (∀ rest ro, controlRecorder ("start" :: rest) ro
        = CtlResult.push .recordOnMsg (controlRecorder rest true)) ∧
    (∀ rest ro, controlRecorder ("stop" :: rest) ro
        = CtlResult.push .recordOffMsg (controlRecorder rest false)) ∧
    (∀ cmd rest ro, cmd ∉ handledCmds →
        controlRecorder (cmd :: rest) ro = ⟨ro, none, [CtlOut.invalid cmd]⟩) ∧
    (∀ pre cmd rest ro,
        (∀ c ∈ pre, c = "help" ∨ c = "start" ∨ c = "stop") →
        cmd ∉ handledCmds →
        controlRecorder (pre ++ cmd :: rest) ro
          = controlRecorder (pre ++ [cmd]) ro) :=
  ⟨ctl_exit, ctl_help, ctl_start, ctl_stop, ctl_unknown, ctl_discard⟩

theorem C5_control_loop_witness :
    controlRecorder ["oops"] false = ⟨false, none, [CtlOut.invalid "oops"]⟩ ∧
    controlRecorder (["start"] ++ "oops" :: ["stop"]) false
      = controlRecorder (["start"] ++ ["oops"]) false :=
  ⟨C5_control_loop.2.2.2.2.1 "oops" [] false (by decide),
   C5_control_loop.2.2.2.2.2 ["start"] "oops" ["stop"] false
     (by decide) (by decide)⟩

theorem pairwise_sink_false (l : List ConnEv)
    (hl : ∀ e ∈ l, e.isSinkSetup = false) :
    l.Pairwise (fun a b => a.isSinkSetup = true → b.isSinkSetup = true) := by
  induction l with
  | nil => exact List.Pairwise.nil
  | cons c t ih =>
      refine List.Pairwise.cons ?_
        (ih fun e he => hl e (List.mem_cons_of_mem _ he))
      intro b _ hc
      rw [hl c (List.mem_cons_self _ _)] at hc
      cases hc

theorem pairwise_sink_true (l : List ConnEv)
    (hr : ∀ e ∈ l, e.isSinkSetup = true) :
    l.Pairwise (fun a b => a.isSinkSetup = true → b.isSinkSetup = true) := by
  induction l with
  | nil => exact List.Pairwise.nil
  | cons c t ih =>
      refine List.Pairwise.cons ?_
        (ih fun e he => hr e (List.mem_cons_of_mem _ he))
      intro b hb _
      exact hr b (List.mem_cons_of_mem _ hb)

theorem connect_prefix_not_sink (addrs : List String) :
    ∀ e ∈ ([ConnEv.touchFrame, ConnEv.connectFrame, ConnEv.getParameters]
        ++ addrs.map ConnEv.touchPos ++ addrs.map ConnEv.connectPos),
      e.isSinkSetup = false := by
  intro e he
  simp only [List.mem_append, List.mem_map, List.mem_cons,
    List.mem_singleton] at he
  rcases he with ((rfl | rfl | rfl | hfalse) | ⟨a, _, rfl⟩) | ⟨a, _, rfl⟩
  · rfl
  · rfl
  · rfl
  · simp at hfalse
  · rfl
  · rfl

theorem connect_split (addrs : List String) :
    connectToNodes addrs
      = ConnEv.touchFrame :: ConnEv.connectFrame :: ConnEv.getParameters ::
        ((addrs.map ConnEv.touchPos ++ addrs.map ConnEv.connectPos)
          ++ [ConnEv.bindSink, ConnEv.retrieveSink]) := by
  simp [connectToNodes]

theorem cons3_getElem (L : List ConnEv) (m : Nat) :
    (ConnEv.touchFrame :: ConnEv.connectFrame :: ConnEv.getParameters ::
      L)[m + 3]? = L[m]? := by
  show (ConnEv.touchFrame :: ConnEv.connectFrame :: ConnEv.getParameters ::
      L)[(m + 2) + 1]? = L[m]?
  rw [List.getElem?_cons_succ]
  show (ConnEv.connectFrame :: ConnEv.getParameters :: L)[(m + 1) + 1]? = L[m]?
  rw [List.getElem?_cons_succ]
  show (ConnEv.getParameters :: L)[m + 1]? = L[m]?
  rw [List.getElem?_cons_succ]

/-- C7: connectToNodes performs endpoint setup sources first, sinks last:
the trace starts with touch then connect on the frame Source and the read of
the connection parameters, every position Source touch precedes its connect,
the Sink bind happens only after all 3 + 2n source-side events, retrieve is
last, and no source-setup event ever follows a sink-setup event. -/
theorem C7_connect_order (addrs : List String) :
    (connectToNodes addrs).Pairwise
      (fun a b => a.isSinkSetup = true → b.isSinkSetup = true) ∧
    (connectToNodes addrs)[0]? = some ConnEv.touchFrame ∧
    (connectToNodes addrs)[1]? = some ConnEv.connectFrame ∧
    (connectToNodes addrs)[2]? = some ConnEv.getParameters ∧
    (connectToNodes addrs)[3 + 2 * addrs.length]? = some ConnEv.bindSink ∧
    (connectToNodes addrs)[4 + 2 * addrs.length]? = some ConnEv.retrieveSink ∧
    ∀ a ∈ addrs, ∃ (i j : Nat), i < j ∧
      (connectToNodes addrs)[i]? = some (ConnEv.touchPos a) ∧
      (connectToNodes addrs)[j]? = some (ConnEv.connectPos a) := by
  have hsuffix : ∀ e ∈ [ConnEv.bindSink, ConnEv.retrieveSink],
      ConnEv.isSinkSetup e = true := by
    intro e he
    rcases List.mem_cons.mp he with rfl | he2
    · rfl
    · rcases List.mem_singleton.mp he2 with rfl
      rfl
  refine ⟨?_, ?_, ?_, ?_, ?_, ?_, ?_⟩
  · show (([ConnEv.touchFrame, ConnEv.connectFrame, ConnEv.getParameters]
        ++ addrs.map ConnEv.touchPos ++ addrs.map ConnEv.connectPos)
        ++ [ConnEv.bindSink, ConnEv.retrieveSink]).Pairwise _
    rw [List.pairwise_append]
    refine ⟨pairwise_sink_false _ (connect_prefix_not_sink addrs),
      pairwise_sink_true _ hsuffix, ?_⟩
    intro a _ b hb _
    exact hsuffix b hb
  · rw [connect_split]
    exact List.getElem?_cons_zero
  · rw [connect_split]
    show (ConnEv.touchFrame :: ConnEv.connectFrame :: ConnEv.getParameters ::
        ((addrs.map ConnEv.touchPos ++ addrs.map ConnEv.connectPos)
          ++ [ConnEv.bindSink, ConnEv.retrieveSink]))[0 + 1]?
      = some ConnEv.connectFrame
    rw [List.getElem?_cons_succ]
    exact List.getElem?_cons_zero
  · rw [connect_split]
    show (ConnEv.touchFrame :: ConnEv.connectFrame :: ConnEv.getParameters ::
        ((addrs.map ConnEv.touchPos ++ addrs.map ConnEv.connectPos)
          ++ [ConnEv.bindSink, ConnEv.retrieveSink]))[(0 + 1) + 1]?
      = some ConnEv.getParameters
    rw [List.getElem?_cons_succ, List.getElem?_cons_succ]
    exact List.getElem?_cons_zero
  · have hidx : 3 + 2 * addrs.length = 2 * addrs.length + 3 := by omega
    rw [hidx, connect_split, cons3_getElem]
    have hlen : (addrs.map ConnEv.touchPos
        ++ addrs.map ConnEv.connectPos).length = 2 * addrs.length := by
      simp [two_mul]
    have hge : (addrs.map ConnEv.touchPos
        ++ addrs.map ConnEv.connectPos).length ≤ 2 * addrs.length := by
      rw [hlen]
    rw [List.getElem?_append_right hge, hlen]
    simp
  · have hidx : 4 + 2 * addrs.length = (2 * addrs.length + 1) + 3 := by omega
    rw [hidx, connect_split, cons3_getElem]
    have hlen : (addrs.map ConnEv.touchPos
        ++ addrs.map ConnEv.connectPos).length = 2 * addrs.length := by
      simp [two_mul]
    have hge : (addrs.map ConnEv.touchPos
        ++ addrs.map ConnEv.connectPos).length ≤ 2 * addrs.length + 1 := by
      rw [hlen]
      omega
    rw [List.getElem?_append_right hge, hlen]
    have hone : 2 * addrs.length + 1 - 2 * addrs.length = 1 := by omega
    rw [hone]
    rfl
  · intro a ha
    obtain ⟨k, hklt, hk⟩ := List.getElem_of_mem ha
    have hk2 : addrs[k]? = some a := by
      rw [List.getElem?_eq_getElem hklt, hk]
    refine ⟨k + 3, (addrs.length + k) + 3, by omega, ?_, ?_⟩
    · rw [connect_split, cons3_getElem]
      have h1 : k < (addrs.map ConnEv.touchPos
          ++ addrs.map ConnEv.connectPos).length := by
        simp only [List.length_append, List.length_map]
        omega
      rw [List.getElem?_append_left h1]
      have h2 : k < (addrs.map ConnEv.touchPos).length := by
        simpa using hklt
      rw [List.getElem?_append_left h2, List.getElem?_map, hk2]
      rfl
    · rw [connect_split, cons3_getElem]
      have h1 : addrs.length + k < (addrs.map ConnEv.touchPos
          ++ addrs.map ConnEv.connectPos).length := by
        simp only [List.length_append, List.length_map]
        omega
      rw [List.getElem?_append_left h1]
      have h2 : (addrs.map ConnEv.touchPos).length ≤ addrs.length + k := by
        simp
      rw [List.getElem?_append_right h2]
      have h3 : addrs.length + k - (addrs.map ConnEv.touchPos).length = k := by
        simp only [List.length_map]
        omega
      rw [h3, List.getElem?_map, hk2]
      rfl

theorem C7_connect_order_witness :
    ∃ (i j : Nat), i < j ∧
      (connectToNodes ["p"])[i]? = some (ConnEv.touchPos "p") ∧
      (connectToNodes ["p"])[j]? = some (ConnEv.connectPos "p") :=
  (C7_connect_order ["p"]).2.2.2.2.2.2 "p" (by decide)

theorem serializeList_records (ps : List Position) :
    JVal.serializeList (ps.map JVal.record) = ps.map JTok.record := by
  induction ps with
  | nil => rfl
  | cons p t ih => simp [JVal.serializeList, JVal.serialize, ih]

theorem serialize_tick (t : Nat) (ps : List Position) :
    JVal.serialize (.arr [.num t, .arr (ps.map JVal.record)])
      = writePositionsToFile t ps := by
  simp [JVal.serialize, JVal.serializeList, serializeList_records,
    writePositionsToFile]

theorem runTicks_serialize (ticks : List (Nat × List Position)) :
    runTicks ticks = JVal.serializeList
      (ticks.map fun tp =>
        JVal.arr [.num tp.1, .arr (tp.2.map JVal.record)]) := by
  induction ticks with
  | nil => rfl
  | cons tp r ih =>
      simp only [runTicks, List.map_cons, JVal.serializeList, ih,
        serialize_tick]

theorem tickOf_map (ticks : List (Nat × List Position)) :
    ((positionFileVal ticks).elems).map JVal.tickOf = ticks.map Prod.fst := by
  simp only [positionFileVal, JVal.elems, List.map_map]
  rfl

/-- C4: with at least one position source, one run of the recorder over a
list of fully processed ticks emits the serialization of a single JSON array
closed by a final end-array token at destruction; the array has exactly one
element per tick, each element is the two-element array
[sample_tick, [pos_record, ...]], and — since all serialization happens on
the one coordinator thread, in tick order — the elements appear in strictly
increasing sample-index order whenever the upstream sample ticks are
strictly increasing. -/
theorem C4_position_file (ticks : List (Nat × List Position))
    (hmono : List.Chain' (· < ·) (ticks.map Prod.fst)) :
    recorderPositionTokens ticks = (positionFileVal ticks).serialize ∧
    (recorderPositionTokens ticks).getLast? = some JTok.endArr ∧
    ((positionFileVal ticks).elems).length = ticks.length ∧
    (∀ e ∈ (positionFileVal ticks).elems, ∃ (t : Nat) (ps : List Position),
        e = JVal.arr [JVal.num t, JVal.arr (ps.map JVal.record)]) ∧
    List.Chain' (· < ·)
      (((positionFileVal ticks).elems).map JVal.tickOf) := by
  refine ⟨?_, ?_, ?_, ?_, ?_⟩
  · simp [recorderPositionTokens, positionFileVal, JVal.serialize,
      runTicks_serialize]
  · have hsplit : recorderPositionTokens ticks
        = ([JTok.startArr] ++ runTicks ticks) ++ [JTok.endArr] := by
      simp [recorderPositionTokens]
    rw [hsplit, List.getLast?_concat]
  · simp [positionFileVal, JVal.elems]
  · intro e he
    simp only [positionFileVal, JVal.elems, List.mem_map] at he
    obtain ⟨tp, _, rfl⟩ := he
    exact ⟨tp.1, tp.2, rfl⟩
  · rw [tickOf_map]
    exact hmono

theorem C4_position_file_witness :
    recorderPositionTokens [(0, [7]), (1, [8])]
      = (positionFileVal [(0, [7]), (1, [8])]).serialize ∧
    (recorderPositionTokens [(0, [7]), (1, [8])]).getLast?
      = some JTok.endArr ∧
    ((positionFileVal [(0, [7]), (1, [8])]).elems).length = 2 ∧
    (∀ e ∈ (positionFileVal [(0, [7]), (1, [8])]).elems,
        ∃ (t : Nat) (ps : List Position),
        e = JVal.arr [JVal.num t, JVal.arr (ps.map JVal.record)]) ∧
    List.Chain' (· < ·)
      (((positionFileVal [(0, [7]), (1, [8])]).elems).map JVal.tickOf) := by
  have h := C4_position_file [(0, [7]), (1, [8])] (by simp)
  exact ⟨h.1, h.2.1, by simpa using h.2.2.1, h.2.2.2.1, h.2.2.2.2⟩

theorem sampleAfterCalls_mod (n : Nat) : sampleAfterCalls n = n % 2 ^ 32 := by
  induction n with
  | zero => rfl
  | succ m ih =>
      simp only [sampleAfterCalls, testPositionProcess, ih]
      rw [Nat.add_mod m 1]
      simp

/-- C10 counterexample: the sample counter is a uint32_t, so it wraps: the
(2 ^ 32 + 1)-th process call publishes sample number 0, not 2 ^ 32 as the
claim (k-th call publishes k - 1) requires. -/
theorem C10_counterexample :
    publishedOnCall (2 ^ 32 + 1) = 0 ∧ (2 ^ 32 + 1) - 1 ≠ 0 := by
  constructor
  · show (testPositionProcess (sampleAfterCalls (2 ^ 32 + 1 - 1))).1 = 0
    rw [testPositionProcess, sampleAfterCalls_mod]
    simp
  · omega

/-- C10 amended: every process call publishes exactly one position and
returns false (never signaling end of stream), and the counter advances by
one modulo 2 ^ 32, so the first n calls publish exactly the sample numbers
0 % 2 ^ 32, 1 % 2 ^ 32, ..., (n - 1) % 2 ^ 32 in order (equal to 0..n-1
whenever n ≤ 2 ^ 32). -/
theorem C10_test_position (n : Nat) :
    publishedList n = (List.range n).map (fun j => j % 2 ^ 32) ∧
    (publishedList n).length = n ∧
    (∀ s, (testPositionProcess s).2.2 = false) ∧
    (∀ k, sampleAfterCalls (k + 1) = (sampleAfterCalls k + 1) % 2 ^ 32) := by
  have hlist : publishedList n = (List.range n).map (fun j => j % 2 ^ 32) := by
    induction n with
    | zero => rfl
    | succ m ih =>
        simp only [publishedList, ih, testPositionProcess, sampleAfterCalls_mod]
        rw [List.range_succ]
        simp
  refine ⟨hlist, ?_, fun _ => rfl, fun _ => rfl⟩
  rw [hlist]
  simp

end Oat
